import Mathlib

/-!
Verification of the task-list view-model pipeline of the personal-assistant
dashboard.  The definitions below are shallow embeddings of the TypeScript
functions of the repository:

* `buildTopicTree`   (components/TopicTree.tsx)
* `groupTasks`, `sortTasks` (components/TaskList.tsx)
* `assigneeStats`    (pages/Assignees.tsx)
* the overdue / due-soon / completion-rate computations (pages/Dashboard.tsx)
* the URL query-string sync (pages/Tasks.tsx: initial `useState` read and
  `handleFilterChange` write)

Modelling conventions:

* JavaScript objects and `Map`s used as dictionaries are modelled as
  insertion-ordered association lists, matching JS key-iteration order
  (existing keys are updated in place, new keys are appended at the end).
* Date strings are modelled by the timestamp (in milliseconds) that
  `new Date(s).getTime()` / `parseISO(s)` would return; a date-only ISO
  string parses to the midnight timestamp of that day, so a day lasts
  `86400000` model units and date-only deadlines are multiples of it.
  `null` dates are `Option.none`.
* `Array.prototype.sort` with a comparator is, per the ECMAScript spec, a
  stable sort; it is modelled by the stable `List.insertionSort` applied to
  the relation "comparator result ≤ 0".
-/

namespace TaskVM

/-- `priority` field: closed enumeration `'high' | 'medium' | 'low'`
(types/index.ts). -/
inductive Priority where
  | high
  | medium
  | low
deriving DecidableEq, Repr

/-- `status` field: closed enumeration `'pending' | 'in_progress' | 'completed'`
(types/index.ts). -/
inductive Status where
  | pending
  | in_progress
  | completed
deriving DecidableEq, Repr

/-- A note on a task (`TaskNote` in types/index.ts); `created_at` is the
parsed timestamp. -/
structure TaskNote where
  text : String
  created_at : Nat
deriving DecidableEq, Repr

/-- The `Task` interface of types/index.ts.  Nullable string fields become
`Option String`; date strings become parsed timestamps (see module header). -/
structure Task where
  id : String
  description : String
  assignee : Option String
  deadline : Option Nat
  priority : Priority
  primary_topic : String
  secondary_topics : List String
  status : Status
  context : Option String
  source_transcript_id : Option String
  source_transcript_title : Option String
  created_at : Nat
  updated_at : Nat
  completed_at : Option Nat
  notes : List TaskNote
deriving DecidableEq, Repr

/-! ## Topic Tree Builder (components/TopicTree.tsx, buildTopicTree) -/

/-- The derived `TopicNode` structure of types/index.ts.  The
`Record<string, TopicNode>` children object is an insertion-ordered
association list. -/
inductive TopicNode where
  | mk
    (name : String)
    (fullPath : String)
    (tasks : List Task)
    (children : List (String × TopicNode))
    (taskCount : Nat)
deriving Repr

def TopicNode.name : TopicNode → String
  | .mk n _ _ _ _ => n

def TopicNode.fullPath : TopicNode → String
  | .mk _ p _ _ _ => p

def TopicNode.tasks : TopicNode → List Task
  | .mk _ _ ts _ _ => ts

def TopicNode.children : TopicNode → List (String × TopicNode)
  | .mk _ _ _ cs _ => cs

def TopicNode.taskCount : TopicNode → Nat
  | .mk _ _ _ _ c => c

/-- `task.primary_topic.split('/')` on the underlying character list:
empty segments are kept, and the result is never the empty list
(`"".split('/')` is `[""]` in JavaScript). -/
def splitSlashAux : List Char → List (List Char)
  | [] => [[]]
  | c :: cs =>
    let rest := splitSlashAux cs
    if c = '/' then [] :: rest
    else
      match rest with
      | [] => [[c]]
      | g :: gs => (c :: g) :: gs

def splitSlash (s : String) : List String :=
  (splitSlashAux s.data).map (fun cs => String.mk cs)

/-- `segments.join('/')`. -/
def joinSlash : List String → String
  | [] => ""
  | [s] => s
  | s :: s2 :: rest => s ++ "/" ++ joinSlash (s2 :: rest)

/-- Lookup `children[part]` on the insertion-ordered children record. -/
def childLookup : List (String × TopicNode) → String → Option TopicNode
  | [], _ => none
  | (k, v) :: rest, key => if k = key then some v else childLookup rest key

/-- Write `children[part] = node`: updates an existing key in place,
appends a fresh key at the end (JS object key order). -/
def childSet : List (String × TopicNode) → String → TopicNode → List (String × TopicNode)
  | [], key, node => [(key, node)]
  | (k, v) :: rest, key, node =>
    if k = key then (k, node) :: rest else (k, v) :: childSet rest key node

/-- The body of the `for (let i = 0; i < parts.length; i++)` walk of
`buildTopicTree`, one task at a time.  `done` is the list of path segments
already consumed (so `fullPath = parts.slice(0, i+1).join('/')` is
`joinSlash (done ++ [p])`).  At each segment the child is created if absent,
its `taskCount` is incremented, and at the final segment the task is pushed
onto its `tasks`. -/
def insertParts (task : Task) (done : List String) :
    List String → TopicNode → TopicNode
  | [], node => node
  | p :: rest, node =>
    let fullPath := joinSlash (done ++ [p])
    let child0 := (childLookup node.children p).getD
      (.mk p fullPath [] [] 0)
    let child1 := .mk child0.name child0.fullPath child0.tasks child0.children
      (child0.taskCount + 1)
    let child2 := if rest.isEmpty then
        TopicNode.mk child1.name child1.fullPath (child1.tasks ++ [task])
          child1.children child1.taskCount
      else child1
    let child3 := insertParts task (done ++ [p]) rest child2
    .mk node.name node.fullPath node.tasks (childSet node.children p child3)
      node.taskCount

/-- `buildTopicTree` (components/TopicTree.tsx lines 202-239): root starts
with `taskCount = tasks.length`, every task is walked down its
`primary_topic.split('/')` path. -/
def buildTopicTree (tasks : List Task) : TopicNode :=
  tasks.foldl
    (fun root task => insertParts task [] (splitSlash task.primary_topic) root)
    (.mk "All Topics" "" [] [] tasks.length)

/-- Sum of `taskCount` over a children record. -/
def childCountSum (cs : List (String × TopicNode)) : Nat :=
  (cs.map (fun c => c.2.taskCount)).sum

/-! ## Grouping Engine (components/TaskList.tsx, groupTasks) -/

/-- The `GroupBy` union type of types/index.ts. -/
inductive GroupBy where
  | none
  | topic
  | assignee
  | priority
  | status
deriving DecidableEq, Repr

/-- `task.priority.charAt(0).toUpperCase() + task.priority.slice(1)` on the
closed priority enumeration. -/
def capitalizePriority : Priority → String
  | .high => "High"
  | .medium => "Medium"
  | .low => "Low"

/-- `task.status === 'in_progress' ? 'In Progress' :
task.status.charAt(0).toUpperCase() + task.status.slice(1)`. -/
def statusLabel : Status → String
  | .in_progress => "In Progress"
  | .pending => "Pending"
  | .completed => "Completed"

/-- The `switch (groupBy)` computing the bucket key of a task.  The `.none`
arm is the `default: key = 'Other'` branch of the switch (dead code: the
`groupBy === 'none'` case returns before the loop). -/
def groupKey (groupBy : GroupBy) (task : Task) : String :=
  match groupBy with
  | .topic => task.primary_topic
  | .assignee =>
    -- `task.assignee || 'Unassigned'`: null and '' are falsy
    match task.assignee with
    | Option.none => "Unassigned"
    | Option.some s => if s = "" then "Unassigned" else s
  | .priority => capitalizePriority task.priority
  | .status => statusLabel task.status
  | .none => "Other"

/-- `if (!groups.has(key)) groups.set(key, []); groups.get(key)!.push(task)`
on the insertion-ordered `Map`. -/
def pushGroup (groups : List (String × List Task)) (key : String) (task : Task) :
    List (String × List Task) :=
  match groups with
  | [] => [(key, [task])]
  | (k, ts) :: rest =>
    if k = key then (k, ts ++ [task]) :: rest
    else (k, ts) :: pushGroup rest key task

/-- `groupTasks` (components/TaskList.tsx lines 13-48). -/
def groupTasks (tasks : List Task) (groupBy : GroupBy) :
    List (String × List Task) :=
  if groupBy = GroupBy.none then [("All Tasks", tasks)]
  else tasks.foldl (fun groups task => pushGroup groups (groupKey groupBy task) task) []

/-! ## Sort Engine (components/TaskList.tsx, sortTasks) -/

/-- The `SortBy` union type of types/index.ts. -/
inductive SortBy where
  | deadline
  | priority
  | created
  | updated
  | topic
deriving DecidableEq, Repr

/-- `const priorityOrder = { high: 0, medium: 1, low: 2 }`. -/
def priorityOrder : Priority → Nat
  | .high => 0
  | .medium => 1
  | .low => 2

/-- `a.primary_topic.localeCompare(b.primary_topic)`; locale collation is
modelled as code-point lexicographic comparison. -/
def strCmp (a b : String) : Int :=
  match compare a b with
  | .lt => -1
  | .eq => 0
  | .gt => 1

/-- The comparator passed to `[...tasks].sort((a, b) => ...)` in `sortTasks`
(components/TaskList.tsx lines 51-71). -/
def taskCmp (sortBy : SortBy) (a b : Task) : Int :=
  match sortBy with
  | .deadline =>
    match a.deadline, b.deadline with
    | Option.none, Option.none => 0
    | Option.none, Option.some _ => 1
    | Option.some _, Option.none => -1
    | Option.some x, Option.some y => (x : Int) - (y : Int)
  | .priority => (priorityOrder a.priority : Int) - (priorityOrder b.priority : Int)
  | .created => (b.created_at : Int) - (a.created_at : Int)
  | .updated => (b.updated_at : Int) - (a.updated_at : Int)
  | .topic => strCmp a.primary_topic b.primary_topic

/-- `sortTasks` (components/TaskList.tsx lines 50-72): a stable comparison
sort (ECMAScript guarantee), modelled by `List.insertionSort` on the
relation "comparator result ≤ 0". -/
def sortTasks (tasks : List Task) (sortBy : SortBy) : List Task :=
  List.insertionSort (fun a b => taskCmp sortBy a b ≤ 0) tasks

/-- A task with every optional field absent, used for concrete test inputs. -/
def baseTask (id : String) : Task where
  id := id
  description := "task"
  assignee := Option.none
  deadline := Option.none
  priority := Priority.medium
  primary_topic := "General"
  secondary_topics := []
  status := Status.pending
  context := Option.none
  source_transcript_id := Option.none
  source_transcript_title := Option.none
  created_at := 0
  updated_at := 0
  completed_at := Option.none
  notes := []

/-- `{deadline: null}` from the claim's two-task example. -/
def taskNullDeadline : Task := baseTask "1"

/-- `{deadline: "2024-01-01"}` (epoch timestamp 1704067200000). -/
def taskDated : Task :=
  { baseTask "2" with deadline := Option.some 1704067200000 }

/-! ## Assignee rollups (pages/Assignees.tsx, assigneeStats) -/

/-- The `AssigneeStats` interface of pages/Assignees.tsx. -/
structure AssigneeStats where
  name : String
  tasks : List Task
  high : Nat
  medium : Nat
  low : Nat
  pending : Nat
  completed : Nat
deriving DecidableEq, Repr

/-- `task.assignee || 'Unassigned'` (null and the empty string are falsy). -/
def assigneeName (task : Task) : String :=
  match task.assignee with
  | Option.none => "Unassigned"
  | Option.some s => if s = "" then "Unassigned" else s

/-- The fresh rollup entry created by `stats.set(name, {...})`. -/
def initialStats (name : String) : AssigneeStats where
  name := name
  tasks := []
  high := 0
  medium := 0
  low := 0
  pending := 0
  completed := 0

/-- `stat.tasks.push(task); stat[task.priority]++;` and the
pending/completed split (`in_progress` falls into the `else` branch, so it
counts as pending). -/
def addTaskToStats (stat : AssigneeStats) (task : Task) : AssigneeStats :=
  let s1 := { stat with tasks := stat.tasks ++ [task] }
  let s2 :=
    match task.priority with
    | .high => { s1 with high := s1.high + 1 }
    | .medium => { s1 with medium := s1.medium + 1 }
    | .low => { s1 with low := s1.low + 1 }
  if task.status = Status.completed then { s2 with completed := s2.completed + 1 }
  else { s2 with pending := s2.pending + 1 }

/-- One loop iteration over the insertion-ordered `Map` of rollups:
create the entry if absent, then accumulate the task into it. -/
def statsUpsert (m : List (String × AssigneeStats)) (name : String)
    (task : Task) : List (String × AssigneeStats) :=
  match m with
  | [] => [(name, addTaskToStats (initialStats name) task)]
  | (k, v) :: rest =>
    if k = name then (k, addTaskToStats v task) :: rest
    else (k, v) :: statsUpsert rest name task

/-- The comparator of `Array.from(stats.values()).sort((a, b) => ...)`:
`Unassigned` is sent last, other entries by descending task count. -/
def statsCmp (a b : AssigneeStats) : Int :=
  if a.name = "Unassigned" then 1
  else if b.name = "Unassigned" then -1
  else (b.tasks.length : Int) - (a.tasks.length : Int)

/-- `assigneeStats` (pages/Assignees.tsx lines 41-78): fold all tasks into
the per-assignee map, then sort the values with `statsCmp` (a stable JS
sort, modelled by `List.insertionSort`). -/
def assigneeStats (tasks : List Task) : List AssigneeStats :=
  List.insertionSort (fun a b => statsCmp a b ≤ 0)
    ((tasks.foldl (fun m task => statsUpsert m (assigneeName task) task) []).map
      Prod.snd)

/-- Counter coherence of one rollup entry: `pending` counts exactly the
non-completed tasks of the entry and `completed` exactly the completed
ones. -/
def statGood (s : AssigneeStats) : Prop :=
  s.pending = (s.tasks.filter (fun t => decide (t.status ≠ Status.completed))).length ∧
  s.completed = (s.tasks.filter (fun t => decide (t.status = Status.completed))).length

/-! ## Dashboard statistics (pages/Dashboard.tsx, dashboardStats) -/

/-- One model day in milliseconds; `parseISO` of a date-only string yields
the midnight timestamp of that day, a multiple of this constant. -/
def msPerDay : Nat := 86400000

/-- date-fns `isPast(d)`: `d` is strictly before `now`. -/
def isPast (d now : Nat) : Bool := decide (d < now)

/-- date-fns `isToday(d)`: `d` falls on the same calendar day as `now`. -/
def isToday (d now : Nat) : Bool := decide (d / msPerDay = now / msPerDay)

/-- date-fns `isWithinInterval(d, {start, end})`: inclusive on both ends. -/
def isWithinInterval (d lo hi : Nat) : Bool := decide (lo ≤ d) && decide (d ≤ hi)

/-- date-fns `addDays(t, n)`. -/
def addDays (t n : Nat) : Nat := t + n * msPerDay

/-- `const activeTasks = tasks.filter(t => t.status !== 'completed')`
(pages/Dashboard.tsx line 38). -/
def activeTasks (tasks : List Task) : List Task :=
  tasks.filter (fun t => decide (t.status ≠ Status.completed))

/-- `overdueTasks` (pages/Dashboard.tsx lines 40-42):
`t.deadline && isPast(parseISO(t.deadline)) && !isToday(parseISO(t.deadline))`. -/
def overdueTasks (now : Nat) (tasks : List Task) : List Task :=
  (activeTasks tasks).filter (fun t =>
    match t.deadline with
    | Option.none => false
    | Option.some d => isPast d now && !(isToday d now))

/-- `dueSoonTasks` (pages/Dashboard.tsx lines 44-48):
`isWithinInterval(deadline, { start: now, end: addDays(now, 7) })`. -/
def dueSoonTasks (now : Nat) (tasks : List Task) : List Task :=
  (activeTasks tasks).filter (fun t =>
    match t.deadline with
    | Option.none => false
    | Option.some d => isWithinInterval d now (addDays now 7))

/-- A non-completed task whose deadline is the midnight of day 0. -/
def todayDueTask : Task := { baseTask "c2" with deadline := Option.some 0 }

/-! ## Completion rate (pages/Dashboard.tsx line 143) -/

/-- The fragment of JS number semantics reached by
`Math.round((completed / total) * 100 || 0)`: exact rationals extended with
`NaN` and `Infinity`.  (IEEE rounding of finite intermediates is abstracted
to exact arithmetic; at the guarded `total = 0` point the JS values are
exactly `NaN` resp. `Infinity`, so nothing is lost there.  Operands are
non-negative in this usage, so a single `Infinity` suffices.) -/
inductive JSNum where
  | num (q : ℚ)
  | nan
  | inf
deriving DecidableEq, Repr

/-- JS division on non-negative operands: `0/0 = NaN`, `x/0 = Infinity`. -/
def jsDiv (a b : ℚ) : JSNum :=
  if b = 0 then (if a = 0 then JSNum.nan else JSNum.inf) else JSNum.num (a / b)

/-- `x * 100` (100 is positive, so `Infinity` stays `Infinity`). -/
def jsMul100 : JSNum → JSNum
  | JSNum.num q => JSNum.num (q * 100)
  | JSNum.nan => JSNum.nan
  | JSNum.inf => JSNum.inf

/-- `x || 0`: `NaN` and `0` are falsy and give the fallback `0`. -/
def jsOrZero : JSNum → JSNum
  | JSNum.num q => if q = 0 then JSNum.num 0 else JSNum.num q
  | JSNum.nan => JSNum.num 0
  | JSNum.inf => JSNum.inf

/-- `Math.round` (round half towards positive infinity on finite values). -/
def jsRound : JSNum → JSNum
  | JSNum.num q => JSNum.num ((round q : ℤ) : ℚ)
  | JSNum.nan => JSNum.nan
  | JSNum.inf => JSNum.inf

/-- The completed-card subtitle value
`Math.round((completed / total) * 100 || 0)` (pages/Dashboard.tsx line 143). -/
def completionRatePercent (completed total : Nat) : JSNum :=
  jsRound (jsOrZero (jsMul100 (jsDiv (completed : ℚ) (total : ℚ))))

/-! ## URL query-string sync (pages/Tasks.tsx) -/

/-- The `FilterState` interface of types/index.ts: four nullable fields and
a (possibly empty) search string. -/
structure FilterState where
  status : Option String
  topic : Option String
  assignee : Option String
  priority : Option String
  search : String
deriving DecidableEq, Repr

/-- `URLSearchParams.set`: replaces the first binding of the key or appends
a new one. -/
def paramsSet : List (String × String) → String → String → List (String × String)
  | [], k, v => [(k, v)]
  | (k2, v2) :: rest, k, v =>
    if k2 = k then (k2, v) :: rest else (k2, v2) :: paramsSet rest k v

/-- `URLSearchParams.get`: first binding of the key, or null. -/
def paramsGet : List (String × String) → String → Option String
  | [], _ => Option.none
  | (k2, v2) :: rest, k => if k2 = k then Option.some v2 else paramsGet rest k

/-- The `// Update URL params` block of `handleFilterChange`
(pages/Tasks.tsx lines 364-371): starting from fresh params, each truthy
field (`if (newFilters.x)`; null and `''` are falsy) is written, the search
text under the key `q`. -/
def writeFilterParams (f : FilterState) : List (String × String) :=
  let params : List (String × String) := []
  let params := match f.status with
    | Option.some s => if s ≠ "" then paramsSet params "status" s else params
    | Option.none => params
  let params := match f.topic with
    | Option.some s => if s ≠ "" then paramsSet params "topic" s else params
    | Option.none => params
  let params := match f.assignee with
    | Option.some s => if s ≠ "" then paramsSet params "assignee" s else params
    | Option.none => params
  let params := match f.priority with
    | Option.some s => if s ≠ "" then paramsSet params "priority" s else params
    | Option.none => params
  let params := if f.search ≠ "" then paramsSet params "q" f.search else params
  params

/-- `a || rest` for a `string | null` operand `a` (null and `''` falsy). -/
def orFallback (a : Option String) (rest : String) : String :=
  match a with
  | Option.some s => if s ≠ "" then s else rest
  | Option.none => rest

/-- The initial filter state read on mount (pages/Tasks.tsx lines 351-357):
`searchParams.get(key)` for the four nullable fields, and
`searchParams.get('search') || searchParams.get('q') || ''` for search. -/
def readFilterParams (ps : List (String × String)) : FilterState where
  status := paramsGet ps "status"
  topic := paramsGet ps "topic"
  assignee := paramsGet ps "assignee"
  priority := paramsGet ps "priority"
  search := orFallback (paramsGet ps "search") (orFallback (paramsGet ps "q") "")

/-- A filter state whose `status` is the empty string (allowed by the
`string | null` type) rather than null. -/
def emptyStatusFilter : FilterState where
  status := Option.some ""
  topic := Option.none
  assignee := Option.none
  priority := Option.none
  search := ""

/-! ## Supporting lemmas -/

theorem splitSlashAux_ne_nil (cs : List Char) : splitSlashAux cs ≠ [] := by
  cases cs with
  | nil => simp [splitSlashAux]
  | cons c cs =>
    simp only [splitSlashAux]
    split
    · simp
    · split <;> simp

theorem splitSlash_ne_nil (s : String) : splitSlash s ≠ [] := by
  simp [splitSlash, splitSlashAux_ne_nil]

theorem insertParts_taskCount (task : Task) :
    ∀ (parts : List String) (done : List String) (node : TopicNode),
      (insertParts task done parts node).taskCount = node.taskCount
  | [], _, _ => rfl
  | _ :: _, _, node => by
    simp only [insertParts, TopicNode.taskCount]

theorem insertParts_tasks (task : Task) :
    ∀ (parts : List String) (done : List String) (node : TopicNode),
      (insertParts task done parts node).tasks = node.tasks
  | [], _, _ => rfl
  | _ :: _, _, node => by
    simp only [insertParts, TopicNode.tasks]

theorem childCountSum_cons (k : String) (v : TopicNode)
    (rest : List (String × TopicNode)) :
    childCountSum ((k, v) :: rest) = v.taskCount + childCountSum rest := by
  simp [childCountSum]

theorem childCountSum_set_of_lookup_none (key : String) (node : TopicNode) :
    ∀ (cs : List (String × TopicNode)), childLookup cs key = none →
      childCountSum (childSet cs key node) = childCountSum cs + node.taskCount := by
  intro cs
  induction cs with
  | nil => intro _; simp [childSet, childCountSum]
  | cons kv rest ih =>
    obtain ⟨k, v⟩ := kv
    intro h
    by_cases hk : k = key
    · subst hk
      simp [childLookup] at h
    · simp only [childLookup, if_neg hk] at h
      simp only [childSet, if_neg hk, childCountSum_cons, ih h]
      omega

theorem childCountSum_set_of_lookup_some (key : String) (node w : TopicNode) :
    ∀ (cs : List (String × TopicNode)), childLookup cs key = some w →
      childCountSum (childSet cs key node) + w.taskCount
        = childCountSum cs + node.taskCount := by
  intro cs
  induction cs with
  | nil => intro h; simp [childLookup] at h
  | cons kv rest ih =>
    obtain ⟨k, v⟩ := kv
    intro h
    by_cases hk : k = key
    · subst hk
      simp [childLookup] at h
      subst h
      simp [childSet, childCountSum_cons]
      omega
    · simp only [childLookup, if_neg hk] at h
      simp only [childSet, if_neg hk, childCountSum_cons]
      have := ih h
      omega

/-- Writing back a child whose `taskCount` is one larger than the looked-up
child's (or `1` for a fresh child) raises the total of the record by one. -/
theorem childCountSum_set_succ (key : String) (cs : List (String × TopicNode))
    (inserted : TopicNode)
    (h : inserted.taskCount
      = ((childLookup cs key).map TopicNode.taskCount).getD 0 + 1) :
    childCountSum (childSet cs key inserted) = childCountSum cs + 1 := by
  cases hl : childLookup cs key with
  | none =>
    rw [childCountSum_set_of_lookup_none key inserted cs hl]
    rw [hl] at h
    simp at h
    omega
  | some w =>
    have := childCountSum_set_of_lookup_some key inserted w cs hl
    rw [hl] at h
    simp at h
    omega

theorem insertParts_childCountSum (task : Task) (p : String)
    (rest : List String) (done : List String) (node : TopicNode) :
    childCountSum (insertParts task done (p :: rest) node).children
      = childCountSum node.children + 1 := by
  obtain ⟨nm, fp, ts, cs, cnt⟩ := node
  simp only [insertParts, TopicNode.children, TopicNode.name, TopicNode.fullPath,
    TopicNode.tasks, TopicNode.taskCount]
  apply childCountSum_set_succ
  rw [insertParts_taskCount]
  cases hl : childLookup cs p with
  | none =>
    simp only [hl, Option.getD_none, Option.map_none]
    split <;> simp [TopicNode.taskCount]
  | some w =>
    simp only [hl, Option.getD_some, Option.map_some]
    split <;> simp [TopicNode.taskCount]

theorem buildTree_foldl_invariant (l : List Task) :
    ∀ (node : TopicNode),
      (l.foldl (fun root task =>
          insertParts task [] (splitSlash task.primary_topic) root) node).taskCount
        = node.taskCount ∧
      childCountSum (l.foldl (fun root task =>
          insertParts task [] (splitSlash task.primary_topic) root) node).children
        = childCountSum node.children + l.length ∧
      (l.foldl (fun root task =>
          insertParts task [] (splitSlash task.primary_topic) root) node).tasks
        = node.tasks := by
  induction l with
  | nil => intro node; simp
  | cons t l ih =>
    intro node
    simp only [List.foldl_cons, List.length_cons]
    obtain ⟨h1, h2, h3⟩ := ih (insertParts t [] (splitSlash t.primary_topic) node)
    obtain ⟨p, rest, hsplit⟩ :
        ∃ p rest, splitSlash t.primary_topic = p :: rest := by
      cases hs : splitSlash t.primary_topic with
      | nil => exact absurd hs (splitSlash_ne_nil _)
      | cons p rest => exact ⟨p, rest, rfl⟩
    refine ⟨?_, ?_, ?_⟩
    · rw [h1, hsplit, insertParts_taskCount]
    · rw [h2, hsplit, insertParts_childCountSum]
      omega
    · rw [h3, hsplit, insertParts_tasks]

theorem pushGroup_flatten (key : String) (task : Task) :
    ∀ (groups : List (String × List Task)),
      (((pushGroup groups key task).map Prod.snd).flatten).Perm
        ((groups.map Prod.snd).flatten ++ [task]) := by
  intro groups
  induction groups with
  | nil => simp [pushGroup]
  | cons kv rest ih =>
    obtain ⟨k, ts⟩ := kv
    by_cases hk : k = key
    · subst hk
      simp only [pushGroup]
      split
      · simp only [List.map_cons, List.flatten_cons, List.append_assoc]
        exact List.Perm.append_left ts (@List.perm_append_comm _ [task] _)
      · simp_all
    · simp only [pushGroup, if_neg hk, List.map_cons, List.flatten_cons,
        List.append_assoc]
      exact ih.append_left ts

theorem groupTasks_foldl_flatten (key : GroupBy) :
    ∀ (l : List Task) (groups : List (String × List Task)),
      (((l.foldl (fun gs t => pushGroup gs (groupKey key t) t) groups).map
          Prod.snd).flatten).Perm
        ((groups.map Prod.snd).flatten ++ l) := by
  intro l
  induction l with
  | nil => intro groups; simp
  | cons x l ih =>
    intro groups
    simp only [List.foldl_cons]
    refine (ih (pushGroup groups (groupKey key x) x)).trans ?_
    refine ((pushGroup_flatten (groupKey key x) x groups).append_right l).trans ?_
    simp

theorem deadlineLe_total (a b : Task) :
    taskCmp SortBy.deadline a b ≤ 0 ∨ taskCmp SortBy.deadline b a ≤ 0 := by
  cases ha : a.deadline <;> cases hb : b.deadline <;>
    simp [taskCmp, ha, hb] <;> omega

theorem deadlineLe_trans (a b c : Task)
    (hab : taskCmp SortBy.deadline a b ≤ 0)
    (hbc : taskCmp SortBy.deadline b c ≤ 0) :
    taskCmp SortBy.deadline a c ≤ 0 := by
  cases ha : a.deadline <;> cases hb : b.deadline <;> cases hc : c.deadline <;>
    simp_all [taskCmp] <;> omega

theorem statGood_initial (name : String) : statGood (initialStats name) := by
  constructor <;> rfl

theorem statGood_addTask (s : AssigneeStats) (t : Task) (h : statGood s) :
    statGood (addTaskToStats s t) := by
  obtain ⟨h1, h2⟩ := h
  unfold addTaskToStats statGood
  by_cases hc : t.status = Status.completed <;>
    cases t.priority <;>
    simp [hc, List.filter_append, h1, h2]

theorem statsUpsert_statGood (name : String) (t : Task) :
    ∀ (m : List (String × AssigneeStats)),
      (∀ e ∈ m, statGood e.2) →
      ∀ e ∈ statsUpsert m name t, statGood e.2 := by
  intro m
  induction m with
  | nil =>
    intro _ e he
    simp only [statsUpsert, List.mem_singleton] at he
    subst he
    exact statGood_addTask _ _ (statGood_initial name)
  | cons kv rest ih =>
    obtain ⟨k, v⟩ := kv
    intro hm e he
    by_cases hk : k = name
    · simp only [statsUpsert, if_pos hk, List.mem_cons] at he
      rcases he with he | he
      · subst he
        exact statGood_addTask _ _ (hm (k, v) (List.mem_cons_self _ _))
      · exact hm e (List.mem_cons_of_mem _ he)
    · simp only [statsUpsert, if_neg hk, List.mem_cons] at he
      rcases he with he | he
      · subst he
        exact hm (k, v) (List.mem_cons_self _ _)
      · exact ih (fun e2 he2 => hm e2 (List.mem_cons_of_mem _ he2)) e he

theorem statsFold_statGood :
    ∀ (l : List Task) (m : List (String × AssigneeStats)),
      (∀ e ∈ m, statGood e.2) →
      ∀ e ∈ l.foldl (fun m t => statsUpsert m (assigneeName t) t) m, statGood e.2 := by
  intro l
  induction l with
  | nil => intro m hm; simpa using hm
  | cons t l ih =>
    intro m hm
    simp only [List.foldl_cons]
    exact ih _ (statsUpsert_statGood (assigneeName t) t m hm)

theorem length_filter_not_add (p : Task → Bool) :
    ∀ (l : List Task),
      (l.filter p).length + (l.filter (fun t => !(p t))).length = l.length := by
  intro l
  induction l with
  | nil => rfl
  | cons t l ih =>
    by_cases hp : p t <;> simp [List.filter_cons, hp, ← ih] <;> omega

theorem addTaskToStats_name (s : AssigneeStats) (t : Task) :
    (addTaskToStats s t).name = s.name := by
  cases hp : t.priority <;> by_cases h : t.status = Status.completed <;>
    simp [addTaskToStats, h, hp]

theorem statsUpsert_entry_name (n : String) (t : Task) :
    ∀ (m : List (String × AssigneeStats)),
      (∀ e ∈ m, e.2.name = e.1) →
      ∀ e ∈ statsUpsert m n t, e.2.name = e.1 := by
  intro m
  induction m with
  | nil =>
    intro _ e he
    simp only [statsUpsert, List.mem_singleton] at he
    subst he
    simp [addTaskToStats_name, initialStats]
  | cons kv rest ih =>
    obtain ⟨k, v⟩ := kv
    intro hm e he
    by_cases hk : k = n
    · simp only [statsUpsert, if_pos hk, List.mem_cons] at he
      rcases he with he | he
      · subst he
        simpa [addTaskToStats_name] using hm (k, v) (List.mem_cons_self _ _)
      · exact hm e (List.mem_cons_of_mem _ he)
    · simp only [statsUpsert, if_neg hk, List.mem_cons] at he
      rcases he with he | he
      · subst he
        exact hm (k, v) (List.mem_cons_self _ _)
      · exact ih (fun e2 he2 => hm e2 (List.mem_cons_of_mem _ he2)) e he

theorem statsUpsert_keys (n : String) (t : Task) :
    ∀ (m : List (String × AssigneeStats)),
      (statsUpsert m n t).map Prod.fst
        = if n ∈ m.map Prod.fst then m.map Prod.fst
          else m.map Prod.fst ++ [n] := by
  intro m
  induction m with
  | nil => simp [statsUpsert]
  | cons kv rest ih =>
    obtain ⟨k, v⟩ := kv
    by_cases hk : k = n
    · subst hk
      simp [statsUpsert]
    · have hne : ¬ n = k := fun h => hk h.symm
      simp only [statsUpsert, if_neg hk, List.map_cons, List.mem_cons, hne,
        false_or, ih]
      by_cases hmem : n ∈ rest.map Prod.fst <;> simp [hmem]

theorem statsUpsert_keys_nodup (n : String) (t : Task)
    (m : List (String × AssigneeStats)) (h : (m.map Prod.fst).Nodup) :
    ((statsUpsert m n t).map Prod.fst).Nodup := by
  rw [statsUpsert_keys]
  by_cases hmem : n ∈ m.map Prod.fst
  · simpa [hmem] using h
  · simp only [hmem, if_neg]
    simp [List.nodup_append, h, hmem]

theorem statsFold_entry_name :
    ∀ (l : List Task) (m : List (String × AssigneeStats)),
      (∀ e ∈ m, e.2.name = e.1) →
      ∀ e ∈ l.foldl (fun m t => statsUpsert m (assigneeName t) t) m,
        e.2.name = e.1 := by
  intro l
  induction l with
  | nil => intro m hm; simpa using hm
  | cons t l ih =>
    intro m hm
    simp only [List.foldl_cons]
    exact ih _ (statsUpsert_entry_name (assigneeName t) t m hm)

theorem statsFold_keys_nodup :
    ∀ (l : List Task) (m : List (String × AssigneeStats)),
      ((m.map Prod.fst).Nodup) →
      (((l.foldl (fun m t => statsUpsert m (assigneeName t) t) m).map
        Prod.fst).Nodup) := by
  intro l
  induction l with
  | nil => intro m hm; simpa using hm
  | cons t l ih =>
    intro m hm
    simp only [List.foldl_cons]
    exact ih _ (statsUpsert_keys_nodup (assigneeName t) t m hm)

/-- A list of rollup entries with pairwise-distinct names has at most one
entry named `Unassigned`. -/
theorem filter_unassigned_le_one :
    ∀ (l : List AssigneeStats), ((l.map AssigneeStats.name).Nodup) →
      (l.filter (fun s => decide (s.name = "Unassigned"))).length ≤ 1 := by
  intro l
  induction l with
  | nil => intro _; simp
  | cons x l ih =>
    intro h
    simp only [List.map_cons, List.nodup_cons] at h
    obtain ⟨hx, hl⟩ := h
    by_cases hU : x.name = "Unassigned"
    · have hnone : l.filter (fun s => decide (s.name = "Unassigned")) = [] := by
        rw [List.filter_eq_nil_iff]
        intro y hy hyU
        simp only [decide_eq_true_eq] at hyU
        exact hx (by rw [hU, ← hyU]; exact List.mem_map_of_mem _ hy)
      simp [List.filter_cons, hU, hnone]
    · simpa [List.filter_cons, hU] using ih hl

/-- Two comparator relations that agree on the inserted element against
every member of the list produce the same ordered insertion. -/
theorem orderedInsert_congr {α : Type} (p q : α → α → Prop)
    [DecidableRel p] [DecidableRel q] (a : α) :
    ∀ (l : List α), (∀ c ∈ l, p a c ↔ q a c) →
      l.orderedInsert p a = l.orderedInsert q a := by
  intro l
  induction l with
  | nil => intro _; rfl
  | cons b l ih =>
    intro h
    by_cases hp : p a b
    · rw [List.orderedInsert, List.orderedInsert, if_pos hp,
        if_pos ((h b (List.mem_cons_self _ _)).1 hp)]
    · rw [List.orderedInsert, List.orderedInsert, if_neg hp,
        if_neg (fun hq => hp ((h b (List.mem_cons_self _ _)).2 hq)),
        ih (fun c hc => h c (List.mem_cons_of_mem _ hc))]

/-- On a list with at most one `Unassigned` entry, sorting with the raw
comparator relation coincides with sorting with its totalized variant
(which additionally relates two `Unassigned` entries). -/
theorem insertionSort_statsCmp_congr :
    ∀ (l : List AssigneeStats),
      (l.filter (fun s => decide (s.name = "Unassigned"))).length ≤ 1 →
      List.insertionSort (fun a b => statsCmp a b ≤ 0) l
        = List.insertionSort (fun a b => statsCmp a b ≤ 0 ∨
            (a.name = "Unassigned" ∧ b.name = "Unassigned")) l := by
  intro l
  induction l with
  | nil => intro _; rfl
  | cons x l ih =>
    intro h
    by_cases hU : x.name = "Unassigned"
    · have hnone : l.filter (fun s => decide (s.name = "Unassigned")) = [] := by
        by_contra hne
        obtain ⟨y, hy⟩ := List.exists_mem_of_ne_nil _ hne
        have hlen : 2 ≤ ((x :: l).filter
            (fun s => decide (s.name = "Unassigned"))).length := by
          have hylen : 1 ≤ (l.filter
              (fun s => decide (s.name = "Unassigned"))).length :=
            List.length_pos.2 hne
          simp [List.filter_cons, hU]
          omega
        omega
      have hzero : (l.filter (fun s => decide (s.name = "Unassigned"))).length ≤ 1 := by
        rw [hnone]; simp
      simp only [List.insertionSort, ih hzero]
      apply orderedInsert_congr
      intro c hc
      have hcl : c ∈ l :=
        (List.mem_insertionSort (fun a b => statsCmp a b ≤ 0 ∨
          (a.name = "Unassigned" ∧ b.name = "Unassigned"))).1 hc
      have hcU : ¬ c.name = "Unassigned" := by
        intro hcU
        have : c ∈ l.filter (fun s => decide (s.name = "Unassigned")) :=
          List.mem_filter.2 ⟨hcl, by simp [hcU]⟩
        rw [hnone] at this
        exact absurd this (List.not_mem_nil c)
      constructor
      · exact Or.inl
      · rintro (hq | ⟨_, hq⟩)
        · exact hq
        · exact absurd hq hcU
    · have hsame : (l.filter (fun s => decide (s.name = "Unassigned"))).length ≤ 1 := by
        simpa [List.filter_cons, hU] using h
      simp only [List.insertionSort, ih hsame]
      apply orderedInsert_congr
      intro c _
      constructor
      · exact Or.inl
      · rintro (hq | ⟨hq, _⟩)
        · exact hq
        · exact absurd hq hU

theorem statsCmpT_total (a b : AssigneeStats) :
    (statsCmp a b ≤ 0 ∨ (a.name = "Unassigned" ∧ b.name = "Unassigned")) ∨
    (statsCmp b a ≤ 0 ∨ (b.name = "Unassigned" ∧ a.name = "Unassigned")) := by
  by_cases ha : a.name = "Unassigned" <;> by_cases hb : b.name = "Unassigned" <;>
    simp [statsCmp, ha, hb] <;> omega

theorem statsCmpT_trans (a b c : AssigneeStats)
    (hab : statsCmp a b ≤ 0 ∨ (a.name = "Unassigned" ∧ b.name = "Unassigned"))
    (hbc : statsCmp b c ≤ 0 ∨ (b.name = "Unassigned" ∧ c.name = "Unassigned")) :
    statsCmp a c ≤ 0 ∨ (a.name = "Unassigned" ∧ c.name = "Unassigned") := by
  by_cases ha : a.name = "Unassigned" <;> by_cases hb : b.name = "Unassigned" <;>
    by_cases hc : c.name = "Unassigned" <;>
    simp_all [statsCmp] <;> omega

end TaskVM

/-- C7.  Assignee rollup order: in the rollup list, an `Unassigned` entry is
only ever followed by `Unassigned` entries (so it is last, there being at
most one), and wherever the later of two entries is a named assignee its
task count is no larger than the earlier entry's (descending counts). -/
theorem TaskVM.assigneeStats_ordering (tasks : List TaskVM.Task) :
    (TaskVM.assigneeStats tasks).Pairwise (fun a b =>
      (a.name = "Unassigned" → b.name = "Unassigned") ∧
      (b.name ≠ "Unassigned" → b.tasks.length ≤ a.tasks.length)) := by
  haveI : IsTotal TaskVM.AssigneeStats
      (fun a b => TaskVM.statsCmp a b ≤ 0 ∨
        (a.name = "Unassigned" ∧ b.name = "Unassigned")) :=
    ⟨TaskVM.statsCmpT_total⟩
  haveI : IsTrans TaskVM.AssigneeStats
      (fun a b => TaskVM.statsCmp a b ≤ 0 ∨
        (a.name = "Unassigned" ∧ b.name = "Unassigned")) :=
    ⟨TaskVM.statsCmpT_trans⟩
  have hnames : ∀ e ∈ tasks.foldl
      (fun m t => TaskVM.statsUpsert m (TaskVM.assigneeName t) t) [],
      e.2.name = e.1 :=
    TaskVM.statsFold_entry_name tasks [] (by simp)
  have hkeys : (((tasks.foldl
      (fun m t => TaskVM.statsUpsert m (TaskVM.assigneeName t) t) []).map
        Prod.fst).Nodup) :=
    TaskVM.statsFold_keys_nodup tasks [] (by simp)
  have hvnames : ((tasks.foldl
      (fun m t => TaskVM.statsUpsert m (TaskVM.assigneeName t) t) []).map
        Prod.snd).map TaskVM.AssigneeStats.name
      = (tasks.foldl
      (fun m t => TaskVM.statsUpsert m (TaskVM.assigneeName t) t) []).map
        Prod.fst := by
    rw [List.map_map]
    exact List.map_congr_left hnames
  have hle1 : (((tasks.foldl
      (fun m t => TaskVM.statsUpsert m (TaskVM.assigneeName t) t) []).map
        Prod.snd).filter
          (fun s => decide (s.name = "Unassigned"))).length ≤ 1 :=
    TaskVM.filter_unassigned_le_one _ (by rw [hvnames]; exact hkeys)
  have hs := List.sorted_insertionSort
    (fun a b => TaskVM.statsCmp a b ≤ 0 ∨
      (a.name = "Unassigned" ∧ b.name = "Unassigned"))
    ((tasks.foldl (fun m t => TaskVM.statsUpsert m (TaskVM.assigneeName t) t)
      []).map Prod.snd)
  rw [← TaskVM.insertionSort_statsCmp_congr _ hle1] at hs
  refine List.Pairwise.imp ?_ hs
  intro a b h
  rcases h with h | ⟨ha, hb⟩
  · have haU : ¬ a.name = "Unassigned" := by
      intro ha
      simp [TaskVM.statsCmp, ha] at h
    refine ⟨fun ha => absurd ha haU, fun hb => ?_⟩
    simp only [TaskVM.statsCmp, if_neg haU, if_neg hb] at h
    omega
  · exact ⟨fun _ => hb, fun hbne => absurd hb hbne⟩

/-- C9.  In every per-assignee rollup entry, `pending` counts exactly the
non-completed tasks of the entry (so `in_progress` tasks count as pending),
and `pending + completed` equals the entry's total task count. -/
theorem TaskVM.assigneeStats_pending_completed (tasks : List TaskVM.Task)
    (s : TaskVM.AssigneeStats) (hs : s ∈ TaskVM.assigneeStats tasks) :
    s.pending + s.completed = s.tasks.length ∧
      s.pending = (s.tasks.filter
        (fun t => decide (t.status ≠ TaskVM.Status.completed))).length := by
  have hmem : s ∈ (tasks.foldl
      (fun m t => TaskVM.statsUpsert m (TaskVM.assigneeName t) t) []).map
        Prod.snd := by
    have := List.perm_insertionSort
      (fun a b => TaskVM.statsCmp a b ≤ 0)
      ((tasks.foldl (fun m t => TaskVM.statsUpsert m (TaskVM.assigneeName t) t)
        []).map Prod.snd)
    exact this.mem_iff.1 hs
  obtain ⟨e, he, hes⟩ := List.mem_map.1 hmem
  have hgood : TaskVM.statGood e.2 :=
    TaskVM.statsFold_statGood tasks [] (by simp) e he
  rw [← hes]
  obtain ⟨h1, h2⟩ := hgood
  refine ⟨?_, h1⟩
  rw [h1, h2]
  have := TaskVM.length_filter_not_add
    (fun t => decide (t.status ≠ TaskVM.Status.completed)) e.2.tasks
  simpa using this

/-- Witness for C9 at the one-task input: the single produced rollup entry
satisfies the counter identities. -/
theorem TaskVM.assigneeStats_pending_completed_witness :
    (TaskVM.addTaskToStats (TaskVM.initialStats "Unassigned") (TaskVM.baseTask "w9")
        ∈ TaskVM.assigneeStats [TaskVM.baseTask "w9"]) ∧
    ((TaskVM.addTaskToStats (TaskVM.initialStats "Unassigned")
        (TaskVM.baseTask "w9")).pending +
      (TaskVM.addTaskToStats (TaskVM.initialStats "Unassigned")
        (TaskVM.baseTask "w9")).completed
      = (TaskVM.addTaskToStats (TaskVM.initialStats "Unassigned")
        (TaskVM.baseTask "w9")).tasks.length) :=
  ⟨by decide,
   (TaskVM.assigneeStats_pending_completed [TaskVM.baseTask "w9"] _ (by decide)).1⟩

/-- C1.  Tree conservation: for every task list, the root node's `taskCount`
equals the length of the input list, and the sum of `taskCount` over the
root's immediate children also equals the length of the input list. -/
theorem TaskVM.buildTopicTree_conservation (tasks : List TaskVM.Task) :
    (TaskVM.buildTopicTree tasks).taskCount = tasks.length ∧
      TaskVM.childCountSum (TaskVM.buildTopicTree tasks).children = tasks.length := by
  unfold TaskVM.buildTopicTree
  obtain ⟨h1, h2, _⟩ := TaskVM.buildTree_foldl_invariant tasks
    (.mk "All Topics" "" [] [] tasks.length)
  refine ⟨h1, ?_⟩
  rw [h2]
  simp [TaskVM.childCountSum, TaskVM.TopicNode.children]

/-- C3.  Grouping partition: for every task list and every grouping key,
the concatenation of all buckets produced by `groupTasks` is a permutation
of the input list (multiset equality: no task lost, none duplicated). -/
theorem TaskVM.groupTasks_partition (tasks : List TaskVM.Task)
    (groupBy : TaskVM.GroupBy) :
    (((TaskVM.groupTasks tasks groupBy).map Prod.snd).flatten).Perm tasks := by
  unfold TaskVM.groupTasks
  split
  · simp
  · simpa using TaskVM.groupTasks_foldl_flatten groupBy tasks []

/-- C4.  Deadline sort null-last: sorting by deadline yields a sequence in
which dated tasks come in ascending date order and every no-deadline task is
placed after every dated task; on the claim's two-task input
`[{deadline:null}, {deadline:"2024-01-01"}]` the dated task comes first. -/
theorem TaskVM.sortTasks_deadline_null_last :
    (∀ tasks : List TaskVM.Task,
      (TaskVM.sortTasks tasks TaskVM.SortBy.deadline).Pairwise (fun a b =>
        (a.deadline = Option.none → b.deadline = Option.none) ∧
        ∀ x y, a.deadline = Option.some x → b.deadline = Option.some y → x ≤ y)) ∧
    TaskVM.sortTasks [TaskVM.taskNullDeadline, TaskVM.taskDated]
        TaskVM.SortBy.deadline
      = [TaskVM.taskDated, TaskVM.taskNullDeadline] := by
  constructor
  · intro tasks
    haveI : IsTotal TaskVM.Task
        (fun a b => TaskVM.taskCmp TaskVM.SortBy.deadline a b ≤ 0) :=
      ⟨TaskVM.deadlineLe_total⟩
    haveI : IsTrans TaskVM.Task
        (fun a b => TaskVM.taskCmp TaskVM.SortBy.deadline a b ≤ 0) :=
      ⟨TaskVM.deadlineLe_trans⟩
    have hs := List.sorted_insertionSort
      (fun a b => TaskVM.taskCmp TaskVM.SortBy.deadline a b ≤ 0) tasks
    refine List.Pairwise.imp ?_ hs
    intro a b h
    refine ⟨?_, ?_⟩
    · intro han
      cases hbd : b.deadline with
      | none => rfl
      | some y => simp [TaskVM.taskCmp, han, hbd] at h
    · intro x y hax hby
      simp [TaskVM.taskCmp, hax, hby] at h
      omega
  · decide

/-- C5.  Sort stability / idempotence: a list already sorted by the priority
comparator is returned unchanged by `sortTasks` with the priority key. -/
theorem TaskVM.sortTasks_priority_idempotent (tasks : List TaskVM.Task)
    (h : tasks.Pairwise
      (fun a b => TaskVM.taskCmp TaskVM.SortBy.priority a b ≤ 0)) :
    TaskVM.sortTasks tasks TaskVM.SortBy.priority = tasks :=
  List.Sorted.insertionSort_eq h

/-- Witness for C5 at the concrete sorted-by-priority input
`[high, low]`. -/
theorem TaskVM.sortTasks_priority_idempotent_witness :
    ([{ TaskVM.baseTask "3" with priority := TaskVM.Priority.high },
      { TaskVM.baseTask "4" with priority := TaskVM.Priority.low }].Pairwise
        (fun a b => TaskVM.taskCmp TaskVM.SortBy.priority a b ≤ 0)) ∧
    TaskVM.sortTasks
        [{ TaskVM.baseTask "3" with priority := TaskVM.Priority.high },
         { TaskVM.baseTask "4" with priority := TaskVM.Priority.low }]
        TaskVM.SortBy.priority
      = [{ TaskVM.baseTask "3" with priority := TaskVM.Priority.high },
         { TaskVM.baseTask "4" with priority := TaskVM.Priority.low }] :=
  ⟨by decide, TaskVM.sortTasks_priority_idempotent _ (by decide)⟩

/-- C10.  The root node returned by the topic tree builder always has an
empty `tasks` list: `split('/')` yields at least one segment, so every task
is attached at depth ≥ 1, never to the root. -/
theorem TaskVM.buildTopicTree_root_tasks_empty (tasks : List TaskVM.Task) :
    (TaskVM.buildTopicTree tasks).tasks = [] := by
  unfold TaskVM.buildTopicTree
  obtain ⟨_, _, h3⟩ := TaskVM.buildTree_foldl_invariant tasks
    (.mk "All Topics" "" [] [] tasks.length)
  exact h3

/-- C2 counterexample.  At noon of day 0 (`now = 43200000`), a non-completed
task due exactly today (deadline = midnight of day 0) is NOT in the due-soon
set: `isWithinInterval` requires `now ≤ deadline`, and midnight is before
noon. -/
theorem TaskVM.today_due_not_due_soon_cex :
    TaskVM.todayDueTask.status ≠ TaskVM.Status.completed ∧
    TaskVM.todayDueTask.deadline = Option.some 0 ∧
    TaskVM.isToday 0 43200000 = true ∧
    TaskVM.todayDueTask ∉ TaskVM.dueSoonTasks 43200000 [TaskVM.todayDueTask] :=
  ⟨by decide, by decide, by decide, by decide⟩

/-- C2 (amended).  A non-completed task whose deadline is on the current
calendar day is never counted overdue; it is counted due-soon exactly when
`now` is not past the deadline's (midnight) timestamp — so such a task can
fall in neither set. -/
theorem TaskVM.today_due_never_overdue (now d : Nat)
    (tasks : List TaskVM.Task) (t : TaskVM.Task) (ht : t ∈ tasks)
    (hact : t.status ≠ TaskVM.Status.completed)
    (hd : t.deadline = Option.some d)
    (htoday : TaskVM.isToday d now = true) :
    t ∉ TaskVM.overdueTasks now tasks ∧
      (t ∈ TaskVM.dueSoonTasks now tasks ↔ now ≤ d) := by
  have hq : d / TaskVM.msPerDay = now / TaskVM.msPerDay := by
    simpa [TaskVM.isToday] using htoday
  have hle : d ≤ TaskVM.addDays now 7 := by
    simp only [TaskVM.addDays, TaskVM.msPerDay] at hq ⊢
    omega
  have hactive : t ∈ TaskVM.activeTasks tasks :=
    List.mem_filter.2 ⟨ht, by simp [hact]⟩
  constructor
  · intro hmem
    have hpred := (List.mem_filter.1 hmem).2
    simp only [hd] at hpred
    simp [htoday] at hpred
  · constructor
    · intro hmem
      have hpred := (List.mem_filter.1 hmem).2
      simp only [hd] at hpred
      simp [TaskVM.isWithinInterval] at hpred
      exact hpred.1
    · intro hnd
      refine List.mem_filter.2 ⟨hactive, ?_⟩
      simp only [hd]
      simp [TaskVM.isWithinInterval, hnd, hle]

/-- Witness for the amended C2 at `now = 0` (start of the day): the task is
in neither the overdue set nor outside the due-soon set. -/
theorem TaskVM.today_due_never_overdue_witness :
    TaskVM.todayDueTask ∉ TaskVM.overdueTasks 0 [TaskVM.todayDueTask] ∧
      (TaskVM.todayDueTask ∈ TaskVM.dueSoonTasks 0 [TaskVM.todayDueTask]
        ↔ 0 ≤ 0) :=
  TaskVM.today_due_never_overdue 0 0 [TaskVM.todayDueTask] TaskVM.todayDueTask
    (by decide) (by decide) (by decide) (by decide)

/-- C6 counterexample.  The filter state with `status = ""` (a value of the
`string | null` field type) writes no `status` parameter (empty strings are
falsy) and reads back as `status = null`, so the round trip is not the
identity on it. -/
theorem TaskVM.url_roundtrip_cex :
    TaskVM.readFilterParams (TaskVM.writeFilterParams TaskVM.emptyStatusFilter)
      ≠ TaskVM.emptyStatusFilter := by decide

/-- C6 (amended).  Writing the filter state to the query string and reading
it back on mount is the identity for every filter state whose nullable
fields are null or non-empty (exactly the states the filter UI produces);
the search text round-trips through the `q` key, and absent parameters read
back as null (empty string for search). -/
theorem TaskVM.url_roundtrip (f : TaskVM.FilterState)
    (hs : f.status ≠ Option.some "") (htp : f.topic ≠ Option.some "")
    (ha : f.assignee ≠ Option.some "") (hp : f.priority ≠ Option.some "") :
    TaskVM.readFilterParams (TaskVM.writeFilterParams f) = f := by
  obtain ⟨st, tp, asg, pr, se⟩ := f
  rcases st with _ | s1 <;> rcases tp with _ | s2 <;>
    rcases asg with _ | s3 <;> rcases pr with _ | s4 <;>
    by_cases hse : se = "" <;>
    simp_all [TaskVM.writeFilterParams, TaskVM.readFilterParams,
      TaskVM.paramsSet, TaskVM.paramsGet, TaskVM.orFallback]

/-- Witness for the amended C6 at a fully populated filter state. -/
theorem TaskVM.url_roundtrip_witness :
    TaskVM.readFilterParams (TaskVM.writeFilterParams
        ⟨Option.some "pending", Option.some "Work", Option.some "alice",
          Option.some "high", "beta"⟩)
      = ⟨Option.some "pending", Option.some "Work", Option.some "alice",
          Option.some "high", "beta"⟩ :=
  TaskVM.url_roundtrip _ (by decide) (by decide) (by decide) (by decide)

/-- C8.  Completion-rate guard: with a consistent stats payload
(`completed ≤ total`) and zero total, the rendered completion rate is the
number 0 (the `|| 0` guard turns the `0/0 = NaN` into 0), not `NaN` or any
other non-numeric value. -/
theorem TaskVM.completionRate_zero_total (completed total : Nat)
    (hc : completed ≤ total) (h0 : total = 0) :
    TaskVM.completionRatePercent completed total = TaskVM.JSNum.num 0 := by
  subst h0
  have h : completed = 0 := Nat.le_zero.1 hc
  subst h
  simp [TaskVM.completionRatePercent, TaskVM.jsDiv, TaskVM.jsMul100,
    TaskVM.jsOrZero, TaskVM.jsRound]

/-- Witness for C8 at `completed = 0, total = 0`. -/
theorem TaskVM.completionRate_zero_total_witness :
    (0 : Nat) ≤ 0 ∧ TaskVM.completionRatePercent 0 0 = TaskVM.JSNum.num 0 :=
  ⟨Nat.le_refl 0, TaskVM.completionRate_zero_total 0 0 (Nat.le_refl 0) rfl⟩
